import Mathlib

/-
Verification development for the epicurrents/onnx-service repository.

The two peers are embedded shallowly:
  - `Worker`: the run executor of src/onnx.worker.ts (module state `RUN`,
    the message handler `onmessage`, and the helpers `cancelRun`, `loadModel`,
    `pause`, `resetRun`, `resume`, `run`).
  - `Facade`: the controller facade `GenericOnnxService` of the service class
    file (state fields, `handleWorkerResponse`, and the command methods).

JavaScript arrays of objects are modelled with an explicit heap: an array of
object references (`resultRefs : List Nat`) indexing into `heap`, so that
`new Array(n).fill(obj)` — which stores n references to one shared object —
keeps its aliasing semantics.

Async methods are split at their await points: for each method the part up to
its first `await` is a state function (suffix-free, keeping the source name),
and the code after an awaited promise resolves is a separate `...Cont`
function.  The registry and waiter helpers of the external @epicurrents/core
base class are not part of this repository; they are modelled from the spec
and marked as such in their doc comments.
-/

/-- Messages crossing the worker boundary (both the worker responses and the
unsolicited progress notifications).  Fields that a given message kind does
not carry are set to their neutral value (`none`, `[]`, `0`); the facade only
reads fields its branch uses. -/
structure BMsg where
  action : String
  rn : Option Nat
  success : Option Bool
  complete : Nat
  results : List (Option Nat)
  successList : List (Option Bool)
deriving DecidableEq

/-- One entry of `RUN.results` in the worker: success flag and inference
output, both `null` until written.  Inference outputs are abstracted to
`Nat`. -/
structure SampleResult where
  success : Option Bool
  value : Option Nat
deriving DecidableEq

/-- The worker module state `RUN` of src/onnx.worker.ts.  `RUN.results` is an
array of object references (`resultRefs`) into `heap`; `session` abstracts
whether an inference session handle is present. -/
structure RunState where
  continueFlag : Bool
  resultRefs : List Nat
  heap : List SampleResult
  sampleIdx : Nat
  samples : List Nat
  session : Bool
deriving DecidableEq

namespace Worker

/-- Dereference the whole `RUN.results` array: the record each stored
reference points at. -/
def derefAll (st : RunState) : List SampleResult :=
  st.resultRefs.map (fun r => st.heap.getD r { success := none, value := none })

/-- Dereference one index of `RUN.results`. -/
def derefAt (st : RunState) (j : Nat) : Option SampleResult :=
  (st.resultRefs.get? j).bind (fun r => st.heap.get? r)

/-- Mutate the record that `RUN.results[i]` points at, as the assignments
`RUN.results[i].value = ...` and `RUN.results[i].success = ...` do. -/
def updateResultAt (i : Nat) (f : SampleResult → SampleResult) (st : RunState) : RunState :=
  match st.resultRefs.get? i with
  | some ref =>
    { st with heap := st.heap.set ref (f (st.heap.getD ref { success := none, value := none })) }
  | none => st

/-- Source `resetRun`: clear `continue`, `results`, `sampleIdx`, `samples`. -/
def resetRun (st : RunState) : RunState :=
  { st with continueFlag := false, resultRefs := [], sampleIdx := 0, samples := [] }

/-- Source `cancelRun`: fails unless a session exists and the run flag is up,
otherwise resets the run and clears `RUN.results`. -/
def cancelRun (st : RunState) : Bool × RunState :=
  if st.session = false ∨ st.continueFlag = false then (false, st)
  else (true, { resetRun st with resultRefs := [] })

/-- Source `pause`: fails unless a session exists and the run flag is up,
otherwise lowers `RUN.continue`. -/
def pause (st : RunState) : Bool × RunState :=
  if st.session = false ∨ st.continueFlag = false then (false, st)
  else (true, { st with continueFlag := false })

/-- Source `loadModel`: `ort.InferenceSession.create` is the external engine;
`ok` is its outcome.  On success a session handle is stored, on failure the
state is left as it was (the error is only logged). -/
def loadModel (ok : Bool) (st : RunState) : RunState :=
  if ok then { st with session := true } else st

/-- The fresh-activation head of source `run`: when `RUN.sampleIdx` is 0 the
results array is created as `new Array(samples.length).fill(record)` — one
shared record object, n references to it — and the samples are stored. -/
def runInit (samples : List Nat) (st : RunState) : RunState :=
  if st.sampleIdx = 0 then
    { st with
      resultRefs := List.replicate samples.length st.heap.length,
      heap := st.heap ++ [{ success := none, value := none }],
      samples := samples }
  else st

/-- One inference step of the loop body of source `run`: build the tensor for
`samples[RUN.sampleIdx]`, invoke the session (`infer`, `none` = throw); on
success write value and success flag, on failure write only the failure
flag. -/
def processSample (infer : Nat → Option Nat) (samples : List Nat) (st : RunState) : RunState :=
  match infer (samples.getD st.sampleIdx 0) with
  | some v =>
    updateResultAt st.sampleIdx (fun r => { r with value := some v, success := some true }) st
  | none =>
    updateResultAt st.sampleIdx (fun r => { r with success := some false }) st

/-- The progress notification posted after each sample: no correlation id,
`complete = RUN.sampleIdx + 1`, and the success flags of the (aliased)
results array. -/
def progressMsg (st : RunState) : BMsg :=
  { action := "progress", rn := none, success := none,
    complete := st.sampleIdx + 1, results := [],
    successList := (derefAll st).map (fun r => r.success) }

/-- Outcome of the sample loop: whether it exited through the pause branch
(early `return RUN.results`), the state at exit, the progress messages
posted, and the indices on which inference was invoked. -/
structure LoopOut where
  paused : Bool
  state : RunState
  progress : List BMsg
  calls : List Nat
deriving DecidableEq

def pausedOut (st : RunState) : LoopOut :=
  { paused := true, state := st, progress := [], calls := [] }

def completedOut (st : RunState) : LoopOut :=
  { paused := false, state := st, progress := [], calls := [] }

/-- A control request that can be handled at the cooperative checkpoint
(`await sleep(10)`) after a sample: the pause or cancel message handler. -/
inductive Ctrl
  | pauseCtrl
  | cancelCtrl
deriving DecidableEq

def applyCtrl : Option Ctrl → RunState → RunState
  | none, st => st
  | some .pauseCtrl, st => (pause st).2
  | some .cancelCtrl, st => (cancelRun st).2

theorem updateResultAt_sampleIdx (i : Nat) (f : SampleResult → SampleResult) (st : RunState) :
    (updateResultAt i f st).sampleIdx = st.sampleIdx := by
  unfold updateResultAt
  cases st.resultRefs.get? i with
  | none => rfl
  | some ref => rfl

theorem processSample_sampleIdx (infer : Nat → Option Nat) (samples : List Nat) (st : RunState) :
    (processSample infer samples st).sampleIdx = st.sampleIdx := by
  unfold processSample
  cases infer (samples.getD st.sampleIdx 0) with
  | none => exact updateResultAt_sampleIdx _ _ _
  | some v => exact updateResultAt_sampleIdx _ _ _

/-- The sample loop of source `run` once no further control message will
arrive: `for (; RUN.sampleIdx < samples.length; RUN.sampleIdx++)` with the
pause check at the top of the body.  Note the bound and the indexing use the
`samples` argument of the call, exactly as the source does. -/
def runLoopPure (infer : Nat → Option Nat) (samples : List Nat) (st : RunState) : LoopOut :=
  if h : st.sampleIdx < samples.length then
    if st.continueFlag then
      let out := runLoopPure infer samples
        { processSample infer samples st with sampleIdx := st.sampleIdx + 1 }
      { out with progress := progressMsg (processSample infer samples st) :: out.progress,
                 calls := st.sampleIdx :: out.calls }
    else pausedOut st
  else completedOut st
termination_by samples.length - st.sampleIdx
decreasing_by simp; omega

/-- The sample loop with a schedule of control messages, one potential
delivery per cooperative checkpoint (the `await sleep(10)` after each
sample, which the source comments reserve for pause handling); the `i++`
for-update runs after the checkpoint, on whatever `RUN.sampleIdx` then
holds. -/
def runLoopInt (infer : Nat → Option Nat) (samples : List Nat) :
    List (Option Ctrl) → RunState → LoopOut
  | [], st => runLoopPure infer samples st
  | c :: rest, st =>
    if st.sampleIdx < samples.length then
      if st.continueFlag then
        let stc := applyCtrl c (processSample infer samples st)
        let out := runLoopInt infer samples rest { stc with sampleIdx := stc.sampleIdx + 1 }
        { out with progress := progressMsg (processSample infer samples st) :: out.progress,
                   calls := st.sampleIdx :: out.calls }
      else pausedOut st
    else completedOut st

/-- Result of one `run` call: the returned value (`none` would be a null
return — the declared possibility the message handler guards against), the
worker state afterwards, posted progress messages, and invoked indices. -/
structure RunOut where
  result : Option (List SampleResult)
  state : RunState
  progress : List BMsg
  calls : List Nat
deriving DecidableEq

/-- Source `run`: inside `if (RUN.session)` the fresh-activation head and the
loop; the pause branch returns the live results array immediately; falling
out of the loop (or skipping the block entirely when no session exists)
splices the results out and resets the run state. -/
def run (infer : Nat → Option Nat) (samples : List Nat) (sched : List (Option Ctrl))
    (st : RunState) : RunOut :=
  if st.session then
    let st0 := runInit samples st
    let out := runLoopInt infer samples sched st0
    if out.paused then
      { result := some (derefAll out.state), state := out.state,
        progress := out.progress, calls := out.calls }
    else
      { result := some (derefAll out.state), state := resetRun out.state,
        progress := out.progress, calls := out.calls }
  else
    { result := some (derefAll st), state := resetRun st, progress := [], calls := [] }

/-- Source `resume`: fails unless a session exists and the run flag is down;
otherwise raises `RUN.continue` and re-invokes `run([])` (whose return value
it discards). -/
def resume (infer : Nat → Option Nat) (sched : List (Option Ctrl)) (st : RunState) :
    Bool × RunState × List BMsg × List Nat :=
  if st.session = false ∨ st.continueFlag = true then (false, st, [], [])
  else
    let out := run infer [] sched { st with continueFlag := true }
    (true, out.state, out.progress, out.calls)

/-- Incoming commissions for the worker.  `ok` on a load carries the external
engine outcome; `sched` carries the control messages that may arrive at the
checkpoints of the started loop. -/
inductive InMsg
  | loadModelMsg (rn : Nat) (ok : Bool)
  | cancelMsg (rn : Nat)
  | pauseMsg (rn : Nat)
  | resumeMsg (rn : Nat) (sched : List (Option Ctrl))
  | runMsg (rn : Nat) (samples : List Nat) (sched : List (Option Ctrl))
  | setupMsg (rn : Nat)
deriving DecidableEq

structure HandleOut where
  state : RunState
  posts : List BMsg
  calls : List Nat
deriving DecidableEq

/-- A plain success or failure response carrying the commission id back. -/
def respMsg (action : String) (rn : Nat) (ok : Bool) : BMsg :=
  { action := action, rn := some rn, success := some ok,
    complete := 0, results := [], successList := [] }

/-- Source `onmessage`: dispatch on `action`, run the helper, and post the
response with the request id; the run branch posts a failure response only
when `run` returned null, and otherwise maps the result records to their
output values. -/
def onmessage (infer : Nat → Option Nat) (m : InMsg) (st : RunState) : HandleOut :=
  match m with
  | .loadModelMsg rn ok =>
    { state := loadModel ok st, posts := [respMsg "load-model" rn ok], calls := [] }
  | .cancelMsg rn =>
    let r := cancelRun st
    { state := r.2, posts := [respMsg "cancel" rn r.1], calls := [] }
  | .pauseMsg rn =>
    let r := pause st
    { state := r.2, posts := [respMsg "pause" rn r.1], calls := [] }
  | .resumeMsg rn sched =>
    let r := resume infer sched st
    { state := r.2.1, posts := r.2.2.1 ++ [respMsg "resume" rn r.1], calls := r.2.2.2 }
  | .runMsg rn samples sched =>
    let out := run infer samples sched st
    match out.result with
    | none =>
      { state := out.state, posts := out.progress ++ [respMsg "run" rn false],
        calls := out.calls }
    | some rs =>
      { state := out.state,
        posts := out.progress ++
          [{ action := "run", rn := some rn, success := some true, complete := 0,
             results := rs.map (fun r => r.value), successList := [] }],
        calls := out.calls }
  | .setupMsg rn =>
    { state := st, posts := [respMsg "setup-worker" rn true], calls := [] }

/-- Process a sequence of incoming messages, accumulating the posted messages
and the inference invocations. -/
def procMsgs (infer : Nat → Option Nat) : List InMsg → RunState → HandleOut
  | [], st => { state := st, posts := [], calls := [] }
  | m :: ms, st =>
    let o := onmessage infer m st
    let rest := procMsgs infer ms o.state
    { state := rest.state, posts := o.posts ++ rest.posts, calls := o.calls ++ rest.calls }

/-- The worker module state as the worker script initializes it. -/
def initRun : RunState :=
  { continueFlag := false, resultRefs := [], heap := [], sampleIdx := 0,
    samples := [], session := false }

/-- The resting shape of the worker state between message deliveries. -/
def WRest (st : RunState) : Prop :=
  st.continueFlag = false ∧ st.sampleIdx = 0

end Worker

/-- The `LoadingState` enumeration of the service types. -/
inductive LoadingState
  | not_loaded
  | loading
  | loaded
  | error
deriving DecidableEq

/-- The observable state of `GenericOnnxService`: the fields of the class
(`_isRunInProgress`, `_modelState`, `_progress` flattened to `complete` and
`target`) together with the commission registry and waiter groups kept by the
@epicurrents/core base class, modelled from the spec: `registry` holds the
pending commissions as correlation-id/action pairs and `nextRn` the next
fresh id (one live commission per id, ids never reused); `phases` holds the
names of the active waiter groups; `notifications` and `settleLog` record,
in order, the notify calls made and the correlation ids whose promises were
settled (resolved or rejected). -/
structure FacadeState where
  isRunInProgress : Bool
  modelState : LoadingState
  complete : Nat
  target : Nat
  registry : List (Nat × String)
  nextRn : Nat
  phases : List String
  notifications : List (String × Bool)
  settleLog : List Nat
deriving DecidableEq

namespace Facade

/-- The `runProgress` getter: `target ? complete / target : 0`. -/
def runProgress (st : FacadeState) : ℚ :=
  if st.target ≠ 0 then (st.complete : ℚ) / (st.target : ℚ) else 0

/-- Modelled from the spec: `_commissionWorker` of the @epicurrents/core base
class (§4.1 `commission`): allocate a fresh correlation id, store the pending
handle keyed by it, send the tagged message, return the promise. -/
def commissionWorker (action : String) (st : FacadeState) : FacadeState :=
  { st with registry := st.registry ++ [(st.nextRn, action)], nextRn := st.nextRn + 1 }

/-- Modelled from the spec: `_getCommissionForMessage` of the @epicurrents/core
base class (§4.1): the pending commission is looked up by the incoming
message correlation id; a message without a matching commission is ignored,
which is the case for progress notifications, which are not commissions. -/
def getCommissionForMessage (msg : BMsg) (st : FacadeState) : Option (Nat × String) :=
  match msg.rn with
  | some n => st.registry.find? (fun c => c.1 == n)
  | none => none

/-- Modelled from the spec: resolving or rejecting a commission (§3, §4.1)
settles its promise and removes it from the registry — destroyed exactly
once, on first matching response.  The settled id is recorded. -/
def settle (n : Nat) (st : FacadeState) : FacadeState :=
  { st with registry := st.registry.filter (fun c => c.1 != n),
            settleLog := st.settleLog ++ [n] }

/-- Modelled from the spec: `_initWaiters` (§4.2 `beginPhase`): create an
empty waiter group for the name, replacing any prior group of that name. -/
def initWaiters (name : String) (st : FacadeState) : FacadeState :=
  { st with phases := name :: st.phases.filter (fun p => p != name) }

/-- Modelled from the spec: `_notifyWaiters` (§4.2 `notify`): resolve every
joined promise of the group with the outcome and delete the group; the call
is recorded. -/
def notifyWaiters (name : String) (outcome : Bool) (st : FacadeState) : FacadeState :=
  { st with phases := st.phases.filter (fun p => p != name),
            notifications := st.notifications ++ [(name, outcome)] }

/-- Modelled from the spec: `super._handleWorkerCommission` of the base class
settles the commission that was already looked up for the message. -/
def handleWorkerCommission (c : Nat × String) (st : FacadeState) : Bool × FacadeState :=
  (true, settle c.1 st)

/-- Source `handleWorkerResponse`: guard on a present action, look the
commission up, then dispatch on the action.  The load-model and run branches
resolve on success and reject on failure — either way the commission is
settled; the pause and resume branches resolve with the success flag; the
progress branch only writes `_progress.complete`; other actions fall back to
the base class handler.  Without a matching commission the handler returns
false and changes nothing. -/
def handleWorkerResponse (msg : BMsg) (st : FacadeState) : Bool × FacadeState :=
  if msg.action = "" then (false, st)
  else
    match getCommissionForMessage msg st with
    | some c =>
      if msg.action = "load-model" then (true, settle c.1 st)
      else if msg.action = "pause" then (true, settle c.1 st)
      else if msg.action = "progress" then (true, { st with complete := msg.complete })
      else if msg.action = "resume" then (true, settle c.1 st)
      else if msg.action = "run" then (true, settle c.1 st)
      else handleWorkerCommission c st
    | none => (false, st)

/-- Source `cancelRun` up to its await: refuse unless a run is in progress;
otherwise lower the flag, notify the run phase with false, and commission a
cancel.  `none` means the method is now awaiting the commission promise. -/
def cancelRun (st : FacadeState) : Option Bool × FacadeState :=
  if st.isRunInProgress = false then (some false, st)
  else
    let st1 := { st with isRunInProgress := false }
    let st2 := notifyWaiters "run" false st1
    (none, commissionWorker "cancel" st2)

/-- Source `resetProgress`: if a run is in progress, fire `cancelRun` (its
synchronous part runs now, un-awaited), then zero complete and target and
dispatch the change events. -/
def resetProgress (st : FacadeState) : FacadeState :=
  let st1 := if st.isRunInProgress then (cancelRun st).2 else st
  { st1 with complete := 0, target := 0 }

/-- Source `cancelRun` after its awaited commission resolves with `resp`:
reset progress and return the response. -/
def cancelRunCont (resp : Bool) (st : FacadeState) : Bool × FacadeState :=
  (resp, resetProgress st)

/-- Source `loadModel` up to its await: set `modelState` to loading, begin
the load phase, and commission a load-model — unconditionally. -/
def loadModel (st : FacadeState) : FacadeState :=
  let st1 := { st with modelState := LoadingState.loading }
  let st2 := initWaiters "load" st1
  commissionWorker "load-model" st2

/-- Source `loadModel` after its awaited commission resolves. -/
def loadModelContOk (st : FacadeState) : FacadeState :=
  notifyWaiters "load" true { st with modelState := LoadingState.loaded }

/-- Source `loadModel` after its awaited commission rejects. -/
def loadModelContFail (st : FacadeState) : FacadeState :=
  notifyWaiters "load" false { st with modelState := LoadingState.error }

/-- Source `setupWorker` up to its await: commission a setup-worker (the
resolved asset path is not part of the model). -/
def setupWorker (st : FacadeState) : FacadeState :=
  commissionWorker "setup-worker" st

/-- Source `setupWorker` after its awaited commission resolves. -/
def setupWorkerContOk (st : FacadeState) : FacadeState :=
  notifyWaiters "init" true st

/-- Source `setupWorker` after its awaited commission rejects. -/
def setupWorkerContFail (st : FacadeState) : FacadeState :=
  notifyWaiters "init" false st

/-- Source `pauseRun` up to its await: refuse unless a run is in progress;
otherwise begin the pause phase, lower the flag (an optional duration only
schedules a later `resumeRun`, which the operation model covers as its own
step), and commission a pause. -/
def pauseRun (st : FacadeState) : Option Bool × FacadeState :=
  if st.isRunInProgress = false then (some false, st)
  else
    let st1 := initWaiters "pause" st
    let st2 := { st1 with isRunInProgress := false }
    (none, commissionWorker "pause" st2)

/-- Source `resumeRun` up to its await: refuse only while a run is in
progress; otherwise raise the flag, notify the pause phase with true, and
commission a resume. -/
def resumeRun (st : FacadeState) : Option Bool × FacadeState :=
  if st.isRunInProgress then (some false, st)
  else
    let st1 := { st with isRunInProgress := true }
    let st2 := notifyWaiters "pause" true st1
    (none, commissionWorker "resume" st2)

/-- How a `run(samples)` call leaves the method: failed fast with an empty
result, suspended awaiting the load phase, or suspended awaiting its issued
run commission. -/
inductive RunCall
  | failFast
  | awaitsLoad
  | commissioned
deriving DecidableEq

/-- Source `run` from the empty-samples check on — the code that runs either
directly (model already loaded) or as the continuation after the awaited
load phase completes; note it does not re-read `modelState`. -/
def runAfterLoad (samples : List Nat) (st : FacadeState) : RunCall × FacadeState :=
  if samples.length = 0 then (RunCall.failFast, st)
  else
    let st1 := resetProgress st
    let st2 := { st1 with target := samples.length, isRunInProgress := true }
    let st3 := initWaiters "run" st2
    (RunCall.commissioned, commissionWorker "run" st3)

/-- Source `run` up to its awaits: refuse while a run is in progress; await
the load phase while `modelState` is loading; fail fast unless the state is
loaded; otherwise continue with `runAfterLoad`. -/
def run (samples : List Nat) (st : FacadeState) : RunCall × FacadeState :=
  if st.isRunInProgress then (RunCall.failFast, st)
  else
    match st.modelState with
    | LoadingState.loading => (RunCall.awaitsLoad, st)
    | LoadingState.loaded => runAfterLoad samples st
    | _ => (RunCall.failFast, st)

/-- Source `run` after its awaited run commission resolves: lower the flag,
notify the run phase with true, and return the results. -/
def runCont (st : FacadeState) : FacadeState :=
  notifyWaiters "run" true { st with isRunInProgress := false }

/-- One step of the facade: a command method (split at its awaits) or the
delivery of one incoming message to `handleWorkerResponse`.  Methods whose
post-await code changes no state have no continuation step. -/
inductive FOp
  | cancelPreOp
  | cancelContOp (resp : Bool)
  | loadPreOp
  | loadContOkOp
  | loadContFailOp
  | pausePreOp
  | resumePreOp
  | runPreOp (samples : List Nat)
  | runAfterOp (samples : List Nat)
  | runContOp
  | setupPreOp
  | setupContOkOp
  | setupContFailOp
  | resetProgressOp
  | deliver (msg : BMsg)
deriving DecidableEq

def isDeliver : FOp → Bool
  | FOp.deliver _ => true
  | _ => false

def applyOp : FOp → FacadeState → FacadeState
  | FOp.cancelPreOp, st => (cancelRun st).2
  | FOp.cancelContOp resp, st => (cancelRunCont resp st).2
  | FOp.loadPreOp, st => loadModel st
  | FOp.loadContOkOp, st => loadModelContOk st
  | FOp.loadContFailOp, st => loadModelContFail st
  | FOp.pausePreOp, st => (pauseRun st).2
  | FOp.resumePreOp, st => (resumeRun st).2
  | FOp.runPreOp samples, st => (run samples st).2
  | FOp.runAfterOp samples, st => (runAfterLoad samples st).2
  | FOp.runContOp, st => runCont st
  | FOp.setupPreOp, st => setupWorker st
  | FOp.setupContOkOp, st => setupWorkerContOk st
  | FOp.setupContFailOp, st => setupWorkerContFail st
  | FOp.resetProgressOp, st => resetProgress st
  | FOp.deliver msg, st => (handleWorkerResponse msg st).2

/-- The facade state right after the constructor: fresh fields, the init
waiter group created, and the `setupWorker` call it fires. -/
def initFacade : FacadeState :=
  setupWorker
    { isRunInProgress := false, modelState := LoadingState.not_loaded,
      complete := 0, target := 0, registry := [], nextRn := 0,
      phases := ["init"], notifications := [], settleLog := [] }

/-- Run a sequence of facade steps from the constructed state. -/
def exec (ops : List FOp) : FacadeState :=
  ops.foldl (fun s op => applyOp op s) initFacade

/-- The shapes the worker actually posts: progress notifications carry no
correlation id (every other posted message kind has a non-progress
action). -/
def workerPostable (msg : BMsg) : Prop :=
  msg.action = "progress" → msg.rn = none

/-- Every delivery in the step sequence is of a worker-postable message. -/
def opsPostable (ops : List FOp) : Prop :=
  ∀ msg : BMsg, FOp.deliver msg ∈ ops → workerPostable msg

end Facade

/-- Registry health maintained by the facade: pending correlation ids are
unique and below the fresh counter, settled ids are unique, below the
counter, and never pending again. -/
def Facade.Inv (st : FacadeState) : Prop :=
  (st.registry.map Prod.fst).Nodup ∧
  (∀ p ∈ st.registry, p.1 < st.nextRn) ∧
  (∀ n ∈ st.settleLog, n < st.nextRn) ∧
  st.settleLog.Nodup ∧
  (∀ n ∈ st.settleLog, ∀ p ∈ st.registry, p.1 ≠ n)

/-- A sequence of in-place mutations of entries of the results array. -/
def Worker.foldWrites (ops : List (Nat × (SampleResult → SampleResult))) (st : RunState) :
    RunState :=
  ops.foldl (fun s p => Worker.updateResultAt p.1 p.2 s) st

/-- A facade state in the middle of a model load: load is the active phase
and a load-model commission is pending. -/
def stLoadActive : FacadeState :=
  { isRunInProgress := false, modelState := LoadingState.loading, complete := 0, target := 0,
    registry := [(0, "setup-worker"), (1, "load-model")], nextRn := 2,
    phases := ["load", "init"], notifications := [], settleLog := [] }

/-- A facade state with a run in progress. -/
def stRunningF : FacadeState :=
  { isRunInProgress := true, modelState := LoadingState.loaded, complete := 0, target := 2,
    registry := [(2, "run")], nextRn := 3, phases := ["run"], notifications := [],
    settleLog := [] }

/-- A facade state after a failed model load. -/
def stErrorF : FacadeState :=
  { isRunInProgress := false, modelState := LoadingState.error, complete := 0, target := 0,
    registry := [], nextRn := 3, phases := [], notifications := [("load", false)],
    settleLog := [] }

/-- A facade state with a single pending run commission. -/
def stPendingRun : FacadeState :=
  { isRunInProgress := true, modelState := LoadingState.loaded, complete := 0, target := 2,
    registry := [(0, "run")], nextRn := 1, phases := ["run"], notifications := [],
    settleLog := [] }

/-- The worker response that settles the run commission of `stPendingRun`. -/
def msgRunResp : BMsg :=
  { action := "run", rn := some 0, success := some true, complete := 0, results := [],
    successList := [] }

/-- A worker state mid-run: session loaded, run flag up, one sample done. -/
def wActive : RunState :=
  { continueFlag := true, resultRefs := [0, 0],
    heap := [{ success := some true, value := some 5 }],
    sampleIdx := 1, samples := [7, 8], session := true }

/-- A worker state with a loaded session and no run performed yet. -/
def wFresh : RunState :=
  { continueFlag := false, resultRefs := [], heap := [], sampleIdx := 0, samples := [],
    session := true }

/-- C3: an unsolicited progress message carries no correlation id, so
`handleWorkerResponse` finds no commission for it and returns false with the
facade state untouched — no commission is settled, but contrary to the
claim the progress counter `complete` is not updated either: the progress
branch sits inside the commission-found branch and is unreachable for
commission-less messages. -/
theorem C3_progress_message_is_ignored (st : FacadeState) (c : Nat)
    (sl : List (Option Bool)) :
    Facade.handleWorkerResponse
      { action := "progress", rn := none, success := none, complete := c,
        results := [], successList := sl } st = (false, st) := by
  simp [Facade.handleWorkerResponse, Facade.getCommissionForMessage]

/-- C5 counterexample: with a load already the active phase (`stLoadActive`),
`loadModel` still issues a new load-model commission, refuting the claim
that the call rejects silently without commissioning. -/
theorem C5_counterexample :
    (Facade.loadModel stLoadActive).registry =
      stLoadActive.registry ++ [(2, "load-model")] ∧
    (Facade.loadModel stLoadActive).registry ≠ stLoadActive.registry := by
  constructor
  · rfl
  · decide

/-- C5 (amended): `loadModel` never checks for an active load phase: from
every facade state it sets `modelState` to loading, begins a fresh load
phase (replacing any prior group of that name), and issues a new load-model
commission. -/
theorem C5_loadModel_always_commissions (st : FacadeState) :
    (Facade.loadModel st).modelState = LoadingState.loading ∧
    (Facade.loadModel st).registry = st.registry ++ [(st.nextRn, "load-model")] ∧
    (Facade.loadModel st).phases = "load" :: st.phases.filter (fun p => p != "load") := by
  refine ⟨rfl, rfl, rfl⟩

/-- C4 counterexample: in the idle constructed state (no run ever started,
`isRunInProgress` false), `resumeRun` does not return false and leave the
state unchanged: it raises the run flag and issues a resume commission. -/
theorem C4_counterexample :
    Facade.initFacade.isRunInProgress = false ∧
    (Facade.resumeRun Facade.initFacade).2 ≠ Facade.initFacade ∧
    (Facade.resumeRun Facade.initFacade).2.isRunInProgress = true ∧
    (Facade.resumeRun Facade.initFacade).2.registry =
      Facade.initFacade.registry ++ [(1, "resume")] := by
  refine ⟨rfl, by decide, rfl, rfl⟩

/-- C4 (amended): `pauseRun` called with no run in progress returns false
and leaves the facade state unchanged; `resumeRun` returns false with the
state unchanged exactly when a run is in progress — the facade does not
distinguish paused from idle, and whenever `isRunInProgress` is false
(idle included) `resumeRun` proceeds, raising the flag and issuing a resume
commission. -/
theorem C4_pause_resume_guards (st : FacadeState) :
    (st.isRunInProgress = false → Facade.pauseRun st = (some false, st)) ∧
    (st.isRunInProgress = true → Facade.resumeRun st = (some false, st)) ∧
    (st.isRunInProgress = false →
      (Facade.resumeRun st).2.isRunInProgress = true ∧
      (Facade.resumeRun st).2.registry = st.registry ++ [(st.nextRn, "resume")]) := by
  refine ⟨fun h => ?_, fun h => ?_, fun h => ?_⟩
  · simp [Facade.pauseRun, h]
  · simp [Facade.resumeRun, h]
  · simp [Facade.resumeRun, h, Facade.notifyWaiters, Facade.commissionWorker]

theorem C4_witness :
    Facade.pauseRun Facade.initFacade = (some false, Facade.initFacade) ∧
    Facade.resumeRun stRunningF = (some false, stRunningF) :=
  ⟨(C4_pause_resume_guards Facade.initFacade).1 rfl,
   (C4_pause_resume_guards stRunningF).2.1 rfl⟩

theorem getLast?_append_single {α : Type} (l : List α) (a : α) :
    (l ++ [a]).getLast? = some a := by
  induction l with
  | nil => rfl
  | cons x xs ih =>
    cases xs with
    | nil => rfl
    | cons y ys =>
      rw [List.cons_append, List.cons_append, List.getLast?_cons_cons]
      simpa using ih

theorem run_result_isSome (infer : Nat → Option Nat) (samples : List Nat)
    (sched : List (Option Worker.Ctrl)) (st : RunState) :
    (Worker.run infer samples sched st).result.isSome = true := by
  unfold Worker.run
  split
  · dsimp only
    split <;> rfl
  · rfl

/-- C9: the worker run function never returns null — every call returns an
array (the no-session path returns the spliced, generally empty, results) —
so the failure branch of the run message handler, which would post success
false with the unprepared-session reason, is unreachable: every run message
is answered with a success true response. -/
theorem C9_run_never_null (infer : Nat → Option Nat) (rn : Nat) (samples : List Nat)
    (sched : List (Option Worker.Ctrl)) (st : RunState) :
    (Worker.run infer samples sched st).result ≠ none ∧
    ((Worker.onmessage infer (Worker.InMsg.runMsg rn samples sched) st).posts.getLast?).map
        (fun p => (p.action, p.success)) = some ("run", some true) := by
  have h := run_result_isSome infer samples sched st
  obtain ⟨rs, hrs⟩ := Option.isSome_iff_exists.mp h
  constructor
  · intro hn
    rw [hn] at hrs
    exact Option.noConfusion hrs
  · simp only [Worker.onmessage]
    rw [hrs]
    simp [getLast?_append_single]

/-- C10: a run call made while the model is loading suspends on the load
phase and its continuation does not re-read the model state: even when the
load has failed and the state is error, the continuation still issues a run
commission (with the progress target set) instead of failing fast. -/
theorem C10_run_skips_recheck (st st' : FacadeState) (samples : List Nat)
    (h1 : st.isRunInProgress = false) (h2 : st.modelState = LoadingState.loading)
    (h3 : samples ≠ []) (h4 : st'.modelState = LoadingState.error)
    (h5 : st'.isRunInProgress = false) :
    (Facade.run samples st).1 = Facade.RunCall.awaitsLoad ∧
    (Facade.run samples st).2 = st ∧
    (Facade.runAfterLoad samples st').1 = Facade.RunCall.commissioned ∧
    (Facade.runAfterLoad samples st').2.registry = st'.registry ++ [(st'.nextRn, "run")] ∧
    (Facade.runAfterLoad samples st').2.target = samples.length := by
  have hlen : samples.length ≠ 0 := fun hl => h3 (List.length_eq_zero.mp hl)
  refine ⟨?_, ?_, ?_, ?_, ?_⟩ <;>
    simp [Facade.run, Facade.runAfterLoad, Facade.resetProgress, Facade.cancelRun,
      Facade.initWaiters, Facade.commissionWorker, Facade.notifyWaiters, h1, h2, h5, hlen]

theorem C10_witness :
    (Facade.run [5] stLoadActive).1 = Facade.RunCall.awaitsLoad ∧
    (Facade.runAfterLoad [5] stErrorF).1 = Facade.RunCall.commissioned :=
  ⟨(C10_run_skips_recheck stLoadActive stErrorF [5] rfl rfl (by decide) rfl rfl).1,
   (C10_run_skips_recheck stLoadActive stErrorF [5] rfl rfl (by decide) rfl rfl).2.2.1⟩

theorem updateResultAt_resultRefs (i : Nat) (f : SampleResult → SampleResult)
    (st : RunState) : (Worker.updateResultAt i f st).resultRefs = st.resultRefs := by
  unfold Worker.updateResultAt
  cases st.resultRefs.get? i with
  | none => rfl
  | some ref => rfl

theorem foldWrites_resultRefs (ops : List (Nat × (SampleResult → SampleResult)))
    (st : RunState) : (Worker.foldWrites ops st).resultRefs = st.resultRefs := by
  induction ops generalizing st with
  | nil => rfl
  | cons p ps ih =>
    show (Worker.foldWrites ps (Worker.updateResultAt p.1 p.2 st)).resultRefs = st.resultRefs
    rw [ih, updateResultAt_resultRefs]

theorem get?_replicate_lt {α : Type} (a : α) {n i : Nat} (h : i < n) :
    (List.replicate n a).get? i = some a := by
  induction n generalizing i with
  | zero => omega
  | succ m ih =>
    cases i with
    | zero => rfl
    | succ j => exact ih (by omega)

theorem get?_append_length {α : Type} (l : List α) (a : α) :
    (l ++ [a]).get? l.length = some a := by
  induction l with
  | nil => rfl
  | cons x xs ih => simpa using ih

theorem get?_set_self {α : Type} (l : List α) (i : Nat) (a : α) (h : i < l.length) :
    (l.set i a).get? i = some a := by
  induction l generalizing i with
  | nil => simp at h
  | cons x xs ih =>
    cases i with
    | zero => rfl
    | succ j => exact ih j (by simp at h; omega)

/-- C8: on a fresh activation the results array is `new Array(n).fill(r)` —
n references to one shared record — so writing the outcome of any single
sample is seen at every index: after any in-place write all entries read
the written record, and after any sequence of writes all entries read
alike. -/
theorem C8_results_share_one_record (st : RunState) (samples : List Nat)
    (h : st.sampleIdx = 0) :
    (Worker.runInit samples st).resultRefs =
      List.replicate samples.length st.heap.length ∧
    (∀ (i : Nat) (f : SampleResult → SampleResult) (j : Nat),
      i < samples.length → j < samples.length →
      Worker.derefAt (Worker.updateResultAt i f (Worker.runInit samples st)) j =
        some (f { success := none, value := none })) ∧
    (∀ (ops : List (Nat × (SampleResult → SampleResult))) (j k : Nat),
      j < samples.length → k < samples.length →
      Worker.derefAt (Worker.foldWrites ops (Worker.runInit samples st)) j =
        Worker.derefAt (Worker.foldWrites ops (Worker.runInit samples st)) k) := by
  have hinit : Worker.runInit samples st =
      { st with resultRefs := List.replicate samples.length st.heap.length,
                heap := st.heap ++ [{ success := none, value := none }],
                samples := samples } := by
    simp [Worker.runInit, h]
  have hgetD : (st.heap ++ [({ success := none, value := none } : SampleResult)]).getD
      st.heap.length { success := none, value := none } =
      { success := none, value := none } := by
    simp [List.getD, get?_append_length]
  refine ⟨by rw [hinit], ?_, ?_⟩
  · intro i f j hi hj
    rw [hinit]
    unfold Worker.updateResultAt Worker.derefAt
    simp only [get?_replicate_lt _ hi, get?_replicate_lt _ hj, Option.some_bind]
    rw [hgetD]
    exact get?_set_self _ _ _ (by simp)
  · intro ops j k hj hk
    unfold Worker.derefAt
    rw [foldWrites_resultRefs, hinit]
    simp only [get?_replicate_lt _ hj, get?_replicate_lt _ hk]

theorem C8_witness :
    (Worker.runInit [7, 8] wFresh).resultRefs = List.replicate 2 0 ∧
    Worker.derefAt
      (Worker.updateResultAt 0 (fun r => { r with success := some true }) (Worker.runInit [7, 8] wFresh)) 1 =
      some { success := some true, value := none } :=
  ⟨(C8_results_share_one_record wFresh [7, 8] rfl).1,
   (C8_results_share_one_record wFresh [7, 8] rfl).2.1 0
     (fun r => { r with success := some true }) 1 (by decide) (by decide)⟩

/-- C6: cancelRun during an active run notifies the run phase with false and
commissions a cancel; its continuation resets progress to zero; on the
executor side cancel succeeds and discards the stored partial results and
run state, returning only a boolean, so a subsequent run with any samples
takes the fresh-activation branch: sample index 0, the batch stored anew,
and a freshly allocated results array. -/
theorem C6_cancel_discards_and_restarts (fst : FacadeState) (wst : RunState)
    (resp : Bool) (samples : List Nat)
    (hf : fst.isRunInProgress = true) (hs : wst.session = true)
    (hc : wst.continueFlag = true) :
    (Facade.cancelRun fst).1 = none ∧
    (Facade.cancelRun fst).2.notifications = fst.notifications ++ [("run", false)] ∧
    (Facade.cancelRun fst).2.registry = fst.registry ++ [(fst.nextRn, "cancel")] ∧
    (Facade.cancelRunCont resp (Facade.cancelRun fst).2).2.complete = 0 ∧
    (Facade.cancelRunCont resp (Facade.cancelRun fst).2).2.target = 0 ∧
    (Worker.cancelRun wst).1 = true ∧
    (Worker.cancelRun wst).2 =
      { wst with continueFlag := false, resultRefs := [], sampleIdx := 0, samples := [] } ∧
    (Worker.runInit samples (Worker.cancelRun wst).2).sampleIdx = 0 ∧
    (Worker.runInit samples (Worker.cancelRun wst).2).samples = samples ∧
    (Worker.runInit samples (Worker.cancelRun wst).2).resultRefs =
      List.replicate samples.length wst.heap.length := by
  have hwc : Worker.cancelRun wst =
      (true,
        { wst with
            continueFlag := false, resultRefs := [], sampleIdx := 0, samples := [] }) := by
    simp [Worker.cancelRun, Worker.resetRun, hs, hc]
  refine ⟨?_, ?_, ?_, ?_, ?_, ?_, ?_, ?_, ?_, ?_⟩ <;>
    simp [Facade.cancelRun, Facade.cancelRunCont, Facade.resetProgress,
      Facade.notifyWaiters, Facade.commissionWorker, hf, hwc, Worker.runInit]

theorem C6_witness :
    (Facade.cancelRun stRunningF).1 = none ∧ (Worker.cancelRun wActive).1 = true :=
  ⟨(C6_cancel_discards_and_restarts stRunningF wActive true [7, 8] rfl rfl rfl).1,
   (C6_cancel_discards_and_restarts stRunningF wActive true [7, 8] rfl rfl rfl).2.2.2.2.2.1⟩

theorem runLoopInt_halt (infer : Nat → Option Nat) (samples : List Nat)
    (sched : List (Option Worker.Ctrl)) (st : RunState) (h : st.continueFlag = false) :
    Worker.runLoopInt infer samples sched st =
      if st.sampleIdx < samples.length then Worker.pausedOut st
      else Worker.completedOut st := by
  cases sched with
  | nil =>
    show Worker.runLoopPure infer samples st = _
    unfold Worker.runLoopPure
    split <;> simp [h, *]
  | cons c rest => simp [Worker.runLoopInt, h]

theorem runLoopInt_done (infer : Nat → Option Nat) (samples : List Nat)
    (sched : List (Option Worker.Ctrl)) (st : RunState)
    (h : ¬ st.sampleIdx < samples.length) :
    Worker.runLoopInt infer samples sched st = Worker.completedOut st := by
  cases sched with
  | nil =>
    show Worker.runLoopPure infer samples st = _
    unfold Worker.runLoopPure
    simp [h]
  | cons c rest => simp [Worker.runLoopInt, h]

theorem run_nil (infer : Nat → Option Nat) (sched : List (Option Worker.Ctrl))
    (st : RunState) :
    (Worker.run infer [] sched st).calls = [] ∧
    Worker.WRest (Worker.run infer [] sched st).state := by
  unfold Worker.run
  cases hsess : st.session with
  | false => simp [Worker.resetRun, Worker.WRest]
  | true =>
    rw [if_pos rfl]
    dsimp only
    rw [runLoopInt_done infer [] sched (Worker.runInit [] st) (by simp)]
    simp [Worker.completedOut, Worker.resetRun, Worker.WRest]

theorem run_from_rest (infer : Nat → Option Nat) (samples : List Nat)
    (sched : List (Option Worker.Ctrl)) (st : RunState) (h : Worker.WRest st) :
    (Worker.run infer samples sched st).calls = [] ∧
    Worker.WRest (Worker.run infer samples sched st).state := by
  obtain ⟨hc, hi⟩ := h
  unfold Worker.run
  cases hsess : st.session with
  | false => simp [Worker.resetRun, Worker.WRest]
  | true =>
    have h0 : (Worker.runInit samples st).continueFlag = false := by
      unfold Worker.runInit
      split <;> simp [hc]
    have h1 : (Worker.runInit samples st).sampleIdx = 0 := by
      unfold Worker.runInit
      split <;> simp [hi]
    rw [if_pos rfl]
    dsimp only
    rw [runLoopInt_halt infer samples sched (Worker.runInit samples st) h0, h1]
    by_cases hlt : 0 < samples.length
    · simp [hlt, Worker.pausedOut, Worker.WRest, h0, h1]
    · simp [hlt, Worker.completedOut, Worker.resetRun, Worker.WRest]

theorem onmessage_rest (infer : Nat → Option Nat) (m : Worker.InMsg) (st : RunState)
    (h : Worker.WRest st) :
    Worker.WRest (Worker.onmessage infer m st).state ∧
    (Worker.onmessage infer m st).calls = [] := by
  obtain ⟨hc, hi⟩ := h
  cases m with
  | loadModelMsg rn ok =>
    cases ok <;> simp [Worker.onmessage, Worker.loadModel, Worker.WRest, hc, hi]
  | cancelMsg rn =>
    simp [Worker.onmessage, Worker.cancelRun, Worker.WRest, hc, hi]
  | pauseMsg rn =>
    simp [Worker.onmessage, Worker.pause, Worker.WRest, hc, hi]
  | resumeMsg rn sched =>
    cases hsess : st.session with
    | false => simp [Worker.onmessage, Worker.resume, hsess, Worker.WRest, hc, hi]
    | true =>
      simp only [Worker.onmessage, Worker.resume]
      rw [if_neg (by simp [hsess, hc])]
      have hr := run_nil infer sched { st with continueFlag := true }
      dsimp only
      exact ⟨hr.2, by simp [hr.1]⟩
  | runMsg rn samples sched =>
    have hr := run_from_rest infer samples sched st ⟨hc, hi⟩
    obtain ⟨rs, hrs⟩ :=
      Option.isSome_iff_exists.mp (run_result_isSome infer samples sched st)
    simp only [Worker.onmessage, hrs]
    exact ⟨hr.2, hr.1⟩
  | setupMsg rn => exact ⟨⟨hc, hi⟩, rfl⟩

theorem procMsgs_rest (infer : Nat → Option Nat) (msgs : List Worker.InMsg) :
    ∀ st : RunState, Worker.WRest st →
    Worker.WRest (Worker.procMsgs infer msgs st).state ∧
    (Worker.procMsgs infer msgs st).calls = [] := by
  induction msgs with
  | nil => exact fun st h => ⟨h, rfl⟩
  | cons m ms ih =>
    intro st h
    have h1 := onmessage_rest infer m st h
    have h2 := ih _ h1.1
    refine ⟨h2.1, ?_⟩
    show (Worker.onmessage infer m st).calls ++
      (Worker.procMsgs infer ms (Worker.onmessage infer m st).state).calls = []
    rw [h1.2, h2.2]
    rfl

/-- C1 (code-bug evidence): the worker `run` never raises `RUN.continue`
(only `resume` does), so the loop pauses at its very first check: for every
message sequence the executor invokes inference on no sample at all.  A
pause after sample k and a resume that continues at sample k+1 are therefore
impossible, and the resumption `run([])` reinitializes the stored state for
the empty batch.  The concrete scenario: with a loaded session, a run over
two samples is answered success with all-null results, and the following
resume is answered success while the stored batch is discarded unprocessed. -/
theorem C1_worker_never_runs_inference :
    (∀ (infer : Nat → Option Nat) (msgs : List Worker.InMsg),
      (Worker.procMsgs infer msgs Worker.initRun).calls = []) ∧
    ((Worker.procMsgs (fun n => some (n + 100))
        [Worker.InMsg.loadModelMsg 0 true, Worker.InMsg.runMsg 1 [7, 8] [none],
         Worker.InMsg.resumeMsg 2 [none]] Worker.initRun).posts.map
        (fun p => (p.action, p.success, p.results)) =
      [("load-model", some true, []), ("run", some true, [none, none]),
       ("resume", some true, [])]) := by
  constructor
  · intro infer msgs
    exact (procMsgs_rest infer msgs Worker.initRun ⟨rfl, rfl⟩).2
  · decide

theorem inv_of_core_eq {a b : FacadeState} (h1 : a.registry = b.registry)
    (h2 : a.settleLog = b.settleLog) (h3 : a.nextRn = b.nextRn)
    (h : Facade.Inv b) : Facade.Inv a := by
  unfold Facade.Inv at h ⊢
  rw [h1, h2, h3]
  exact h

theorem inv_commission (a : String) {st : FacadeState} (h : Facade.Inv st) :
    Facade.Inv (Facade.commissionWorker a st) := by
  obtain ⟨h1, h2, h3, h4, h5⟩ := h
  refine ⟨?_, ?_, ?_, h4, ?_⟩
  · simp only [Facade.commissionWorker, List.map_append]
    rw [List.nodup_append]
    refine ⟨h1, by simp, ?_⟩
    intro x hx hx2
    simp only [List.map_cons, List.map_nil, List.mem_singleton] at hx2
    obtain ⟨p, hp, hpx⟩ := List.mem_map.mp hx
    have := h2 p hp
    omega
  · intro p hp
    rcases List.mem_append.mp hp with hold | hnew
    · exact Nat.lt_succ_of_lt (h2 p hold)
    · simp only [List.mem_singleton] at hnew
      subst hnew
      exact Nat.lt_succ_self _
  · intro n hn
    exact Nat.lt_succ_of_lt (h3 n hn)
  · intro n hn p hp
    rcases List.mem_append.mp hp with hold | hnew
    · exact h5 n hn p hold
    · simp only [List.mem_singleton] at hnew
      subst hnew
      have := h3 n hn
      omega

theorem inv_settle {st : FacadeState} {n : Nat} (h : Facade.Inv st)
    (hmem : ∃ p ∈ st.registry, p.1 = n) : Facade.Inv (Facade.settle n st) := by
  obtain ⟨h1, h2, h3, h4, h5⟩ := h
  obtain ⟨q, hq, hqn⟩ := hmem
  have hnlt : n < st.nextRn := hqn ▸ h2 q hq
  have hnin : n ∉ st.settleLog := fun hin => h5 n hin q hq hqn
  refine ⟨?_, ?_, ?_, ?_, ?_⟩
  · exact List.Nodup.sublist (List.Sublist.map Prod.fst (List.filter_sublist _)) h1
  · intro p hp
    exact h2 p (List.mem_of_mem_filter hp)
  · intro m hm
    rcases List.mem_append.mp hm with hold | hnew
    · exact h3 m hold
    · simp only [List.mem_singleton] at hnew
      subst hnew
      exact hnlt
  · show (st.settleLog ++ [n]).Nodup
    rw [List.nodup_append]
    refine ⟨h4, by simp, ?_⟩
    intro x hx hx2
    simp only [List.mem_singleton] at hx2
    subst hx2
    exact hnin hx
  · intro m hm p hp
    have hpreg := List.mem_of_mem_filter hp
    have hpfilter : p.1 ≠ n := by
      have := List.of_mem_filter hp
      simpa [bne_iff_ne] using this
    rcases List.mem_append.mp hm with hold | hnew
    · exact h5 m hold p hpreg
    · simp only [List.mem_singleton] at hnew
      subst hnew
      exact hpfilter

theorem getCommission_mem {msg : BMsg} {st : FacadeState} {c : Nat × String}
    (h : Facade.getCommissionForMessage msg st = some c) :
    c ∈ st.registry ∧ msg.rn = some c.1 := by
  unfold Facade.getCommissionForMessage at h
  cases hrn : msg.rn with
  | none =>
    rw [hrn] at h
    exact absurd h (by simp)
  | some n =>
    rw [hrn] at h
    have hmem := List.mem_of_find?_eq_some h
    have hpred := List.find?_some h
    have hcn : c.1 = n := by simpa using hpred
    exact ⟨hmem, by rw [hcn]⟩

theorem inv_handle (msg : BMsg) {st : FacadeState} (h : Facade.Inv st) :
    Facade.Inv ((Facade.handleWorkerResponse msg st).2) := by
  by_cases hact : msg.action = ""
  · unfold Facade.handleWorkerResponse
    rw [if_pos hact]
    exact h
  · unfold Facade.handleWorkerResponse
    rw [if_neg hact]
    cases hcm : Facade.getCommissionForMessage msg st with
    | none => exact h
    | some c =>
      obtain ⟨hmem, hrn⟩ := getCommission_mem hcm
      have hsettle := inv_settle h ⟨c, hmem, rfl⟩
      dsimp only
      split_ifs
      · exact hsettle
      · exact hsettle
      · exact inv_of_core_eq rfl rfl rfl h
      · exact hsettle
      · exact hsettle
      · exact hsettle

theorem inv_cancelRun {st : FacadeState} (h : Facade.Inv st) :
    Facade.Inv ((Facade.cancelRun st).2) := by
  unfold Facade.cancelRun
  split_ifs
  · exact h
  · exact inv_commission _ (inv_of_core_eq rfl rfl rfl h)

theorem inv_resetProgress {st : FacadeState} (h : Facade.Inv st) :
    Facade.Inv (Facade.resetProgress st) := by
  unfold Facade.resetProgress
  refine inv_of_core_eq rfl rfl rfl ?_
  split_ifs with hp
  · exact inv_cancelRun h
  · exact h

theorem inv_runAfterLoad (samples : List Nat) {st : FacadeState} (h : Facade.Inv st) :
    Facade.Inv ((Facade.runAfterLoad samples st).2) := by
  unfold Facade.runAfterLoad
  split_ifs
  · exact h
  · exact inv_commission _ (inv_of_core_eq rfl rfl rfl (inv_resetProgress h))

theorem inv_applyOp (op : Facade.FOp) {st : FacadeState} (h : Facade.Inv st) :
    Facade.Inv (Facade.applyOp op st) := by
  cases op with
  | cancelPreOp => exact inv_cancelRun h
  | cancelContOp resp => exact inv_resetProgress h
  | loadPreOp => exact inv_commission _ (inv_of_core_eq rfl rfl rfl h)
  | loadContOkOp => exact inv_of_core_eq rfl rfl rfl h
  | loadContFailOp => exact inv_of_core_eq rfl rfl rfl h
  | pausePreOp =>
    show Facade.Inv (Facade.pauseRun st).2
    unfold Facade.pauseRun
    split_ifs
    · exact h
    · exact inv_commission _ (inv_of_core_eq rfl rfl rfl h)
  | resumePreOp =>
    show Facade.Inv (Facade.resumeRun st).2
    unfold Facade.resumeRun
    split_ifs
    · exact h
    · exact inv_commission _ (inv_of_core_eq rfl rfl rfl h)
  | runPreOp samples =>
    show Facade.Inv (Facade.run samples st).2
    unfold Facade.run
    split_ifs
    · exact h
    · cases st.modelState with
      | not_loaded => exact h
      | loading => exact h
      | loaded => exact inv_runAfterLoad samples h
      | error => exact h
  | runAfterOp samples => exact inv_runAfterLoad samples h
  | runContOp => exact inv_of_core_eq rfl rfl rfl h
  | setupPreOp => exact inv_commission _ h
  | setupContOkOp => exact inv_of_core_eq rfl rfl rfl h
  | setupContFailOp => exact inv_of_core_eq rfl rfl rfl h
  | resetProgressOp => exact inv_resetProgress h
  | deliver msg => exact inv_handle msg h

theorem inv_initFacade : Facade.Inv Facade.initFacade := by
  unfold Facade.Inv
  refine ⟨?_, ?_, ?_, ?_, ?_⟩ <;>
    simp [Facade.initFacade, Facade.setupWorker, Facade.commissionWorker]

theorem inv_exec (ops : List Facade.FOp) : Facade.Inv (Facade.exec ops) := by
  have haux : ∀ (l : List Facade.FOp) (st : FacadeState), Facade.Inv st →
      Facade.Inv (l.foldl (fun s op => Facade.applyOp op s) st) := by
    intro l
    induction l with
    | nil => exact fun st h => h
    | cons op l ih => exact fun st h => ih _ (inv_applyOp op h)
  exact haux ops _ inv_initFacade

theorem settleLog_cancelRun (st : FacadeState) :
    ((Facade.cancelRun st).2).settleLog = st.settleLog := by
  unfold Facade.cancelRun
  split_ifs <;> rfl

theorem settleLog_resetProgress (st : FacadeState) :
    (Facade.resetProgress st).settleLog = st.settleLog := by
  unfold Facade.resetProgress
  by_cases hp : st.isRunInProgress <;> simp [hp, settleLog_cancelRun]

theorem settleLog_runAfterLoad (samples : List Nat) (st : FacadeState) :
    ((Facade.runAfterLoad samples st).2).settleLog = st.settleLog := by
  unfold Facade.runAfterLoad
  split_ifs
  · rfl
  · show (Facade.resetProgress st).settleLog = st.settleLog
    exact settleLog_resetProgress st

/-- C2: over every sequence of facade steps each correlation id is settled
at most once; a delivery settles only the id the message carries; command
steps settle nothing; and re-delivering a response whose first delivery
settled its commission is a no-op that changes nothing. -/
theorem C2_settle_exactly_once :
    (∀ (ops : List Facade.FOp) (n : Nat), (Facade.exec ops).settleLog.count n ≤ 1) ∧
    (∀ (msg : BMsg) (s : FacadeState),
      (Facade.handleWorkerResponse msg s).2.settleLog = s.settleLog ∨
      ∃ n, msg.rn = some n ∧
        (Facade.handleWorkerResponse msg s).2.settleLog = s.settleLog ++ [n]) ∧
    (∀ (op : Facade.FOp) (s : FacadeState), Facade.isDeliver op = false →
      (Facade.applyOp op s).settleLog = s.settleLog) ∧
    (∀ (msg : BMsg) (s : FacadeState),
      (Facade.handleWorkerResponse msg s).2.settleLog ≠ s.settleLog →
      Facade.handleWorkerResponse msg ((Facade.handleWorkerResponse msg s).2) =
        (false, (Facade.handleWorkerResponse msg s).2)) := by
  refine ⟨?_, ?_, ?_, ?_⟩
  · intro ops n
    exact List.nodup_iff_count_le_one.mp (inv_exec ops).2.2.2.1 n
  · intro msg s
    by_cases hact : msg.action = ""
    · left
      unfold Facade.handleWorkerResponse
      rw [if_pos hact]
    · unfold Facade.handleWorkerResponse
      rw [if_neg hact]
      cases hcm : Facade.getCommissionForMessage msg s with
      | none => exact Or.inl rfl
      | some c =>
        obtain ⟨hmem, hrn⟩ := getCommission_mem hcm
        dsimp only
        split_ifs
        · exact Or.inr ⟨c.1, hrn, rfl⟩
        · exact Or.inr ⟨c.1, hrn, rfl⟩
        · exact Or.inl rfl
        · exact Or.inr ⟨c.1, hrn, rfl⟩
        · exact Or.inr ⟨c.1, hrn, rfl⟩
        · exact Or.inr ⟨c.1, hrn, rfl⟩
  · intro op s hop
    cases op with
    | deliver msg => simp [Facade.isDeliver] at hop
    | cancelPreOp => exact settleLog_cancelRun s
    | cancelContOp resp => exact settleLog_resetProgress s
    | loadPreOp => rfl
    | loadContOkOp => rfl
    | loadContFailOp => rfl
    | pausePreOp =>
      show (Facade.pauseRun s).2.settleLog = s.settleLog
      unfold Facade.pauseRun
      split_ifs <;> rfl
    | resumePreOp =>
      show (Facade.resumeRun s).2.settleLog = s.settleLog
      unfold Facade.resumeRun
      split_ifs <;> rfl
    | runPreOp samples =>
      show (Facade.run samples s).2.settleLog = s.settleLog
      unfold Facade.run
      split_ifs
      · rfl
      · cases s.modelState with
        | not_loaded => rfl
        | loading => rfl
        | loaded => exact settleLog_runAfterLoad samples s
        | error => rfl
    | runAfterOp samples => exact settleLog_runAfterLoad samples s
    | runContOp => rfl
    | setupPreOp => rfl
    | setupContOkOp => rfl
    | setupContFailOp => rfl
    | resetProgressOp => exact settleLog_resetProgress s
  · intro msg s hne
    by_cases hact : msg.action = ""
    · exfalso
      apply hne
      unfold Facade.handleWorkerResponse
      rw [if_pos hact]
    · cases hcm : Facade.getCommissionForMessage msg s with
      | none =>
        exfalso
        apply hne
        unfold Facade.handleWorkerResponse
        rw [if_neg hact, hcm]
      | some c =>
        obtain ⟨hmem, hrn⟩ := getCommission_mem hcm
        have hbranch : (Facade.handleWorkerResponse msg s).2 = Facade.settle c.1 s ∨
            (Facade.handleWorkerResponse msg s).2.settleLog = s.settleLog := by
          unfold Facade.handleWorkerResponse
          rw [if_neg hact, hcm]
          dsimp only
          split_ifs
          · exact Or.inl rfl
          · exact Or.inl rfl
          · exact Or.inr rfl
          · exact Or.inl rfl
          · exact Or.inl rfl
          · exact Or.inl rfl
        rcases hbranch with heq | hsame
        · rw [heq]
          unfold Facade.handleWorkerResponse
          rw [if_neg hact]
          have hlook : Facade.getCommissionForMessage msg (Facade.settle c.1 s) = none := by
            unfold Facade.getCommissionForMessage
            rw [hrn]
            apply List.find?_eq_none.mpr
            intro x hx
            have hxf := List.of_mem_filter hx
            simp only [bne_iff_ne, ne_eq] at hxf
            simp [hxf]
          rw [hlook]
        · exact absurd hsame hne

theorem C2_witness :
    (Facade.applyOp Facade.FOp.loadPreOp Facade.initFacade).settleLog =
      Facade.initFacade.settleLog ∧
    Facade.handleWorkerResponse msgRunResp
        ((Facade.handleWorkerResponse msgRunResp stPendingRun).2) =
      (false, (Facade.handleWorkerResponse msgRunResp stPendingRun).2) :=
  ⟨C2_settle_exactly_once.2.2.1 Facade.FOp.loadPreOp Facade.initFacade rfl,
   C2_settle_exactly_once.2.2.2 msgRunResp stPendingRun (by decide)⟩

theorem complete_settle (n : Nat) (s : FacadeState) :
    (Facade.settle n s).complete = s.complete := rfl

theorem complete_applyOp (op : Facade.FOp) (s : FacadeState)
    (hop : ∀ msg : BMsg, op = Facade.FOp.deliver msg → Facade.workerPostable msg)
    (h : s.complete = 0) : (Facade.applyOp op s).complete = 0 := by
  cases op with
  | cancelPreOp =>
    show (Facade.cancelRun s).2.complete = 0
    unfold Facade.cancelRun
    split_ifs <;> exact h
  | cancelContOp resp => rfl
  | loadPreOp => exact h
  | loadContOkOp => exact h
  | loadContFailOp => exact h
  | pausePreOp =>
    show (Facade.pauseRun s).2.complete = 0
    unfold Facade.pauseRun
    split_ifs <;> exact h
  | resumePreOp =>
    show (Facade.resumeRun s).2.complete = 0
    unfold Facade.resumeRun
    split_ifs <;> exact h
  | runPreOp samples =>
    show (Facade.run samples s).2.complete = 0
    unfold Facade.run
    split_ifs
    · exact h
    · cases s.modelState with
      | not_loaded => exact h
      | loading => exact h
      | loaded =>
        unfold Facade.runAfterLoad
        split_ifs <;> [exact h; rfl]
      | error => exact h
  | runAfterOp samples =>
    show (Facade.runAfterLoad samples s).2.complete = 0
    unfold Facade.runAfterLoad
    split_ifs <;> [exact h; rfl]
  | runContOp => exact h
  | setupPreOp => exact h
  | setupContOkOp => exact h
  | setupContFailOp => exact h
  | resetProgressOp => rfl
  | deliver msg =>
    have hpost := hop msg rfl
    show (Facade.handleWorkerResponse msg s).2.complete = 0
    by_cases hact : msg.action = ""
    · unfold Facade.handleWorkerResponse
      rw [if_pos hact]
      exact h
    · unfold Facade.handleWorkerResponse
      rw [if_neg hact]
      cases hcm : Facade.getCommissionForMessage msg s with
      | none => exact h
      | some c =>
        obtain ⟨hmem, hrn⟩ := getCommission_mem hcm
        dsimp only
        split_ifs with hA hB hC
        · exact h
        · exact h
        · exfalso
          rw [Facade.workerPostable, hC] at hpost
          rw [hpost rfl] at hrn
          exact Option.noConfusion hrn
        · exact h
        · exact h
        · exact h

theorem complete_exec (ops : List Facade.FOp) (hops : Facade.opsPostable ops) :
    (Facade.exec ops).complete = 0 := by
  have haux : ∀ (l : List Facade.FOp) (st : FacadeState),
      (∀ msg : BMsg, Facade.FOp.deliver msg ∈ l → Facade.workerPostable msg) →
      st.complete = 0 →
      (l.foldl (fun s op => Facade.applyOp op s) st).complete = 0 := by
    intro l
    induction l with
    | nil => exact fun st _ h => h
    | cons op l ih =>
      intro st hl h
      exact ih _ (fun msg hm => hl msg (List.mem_cons_of_mem op hm))
        (complete_applyOp op st (fun msg heq => hl msg (heq ▸ List.mem_cons_self op l)) h)
  exact haux ops _ hops rfl

/-- C7: at every state reachable by facade steps whose deliveries are
messages the worker can post, the exposed progress fraction lies between 0
and 1, and it is exactly 0 immediately after resetProgress returns. -/
theorem C7_progress_fraction_bounds (ops : List Facade.FOp)
    (hops : Facade.opsPostable ops) :
    (0 ≤ Facade.runProgress (Facade.exec ops) ∧
      Facade.runProgress (Facade.exec ops) ≤ 1) ∧
    (∀ st : FacadeState, Facade.runProgress (Facade.resetProgress st) = 0) := by
  constructor
  · have hz : Facade.runProgress (Facade.exec ops) = 0 := by
      unfold Facade.runProgress
      rw [complete_exec ops hops]
      split_ifs <;> simp
    rw [hz]
    norm_num
  · intro st
    have htz : (Facade.resetProgress st).target = 0 := rfl
    unfold Facade.runProgress
    rw [htz]
    simp

theorem C7_witness :
    0 ≤ Facade.runProgress (Facade.exec []) ∧ Facade.runProgress (Facade.exec []) ≤ 1 :=
  (C7_progress_fraction_bounds [] (fun msg h => absurd h (List.not_mem_nil _))).1
